import Mathlib

/-!
Verification of the structural featurization engine of the vs-utils
repository (`vs_utils/utils/grid_featurizer.py`) against its
natural-language specification.

The Python source is shallowly embedded:

* Pure numeric code becomes Lean functions.  Distances and coordinates that
  the featurizer merely compares are modelled over `ℚ`; the hydrogen-bond
  angle computation, which goes through `arccos`, is modelled over `ℝ`.
* The MD5 digest-to-integer map used by `hash_ecfp` / `hash_ecfp_pair`
  (`int(hashlib.md5(s).hexdigest(), 16)`) is an external deterministic
  library primitive; it is threaded through as an arbitrary function
  `md5num : String → ℕ`, so the theorems hold for the real MD5 map in
  particular.
* OpenBabel structures are embedded as index-level data: an atom carries its
  index, atomic number and hydrogen-bond donor/acceptor flags; a molecule
  gives atoms by id and the bonded-neighbour list of each atom, in iteration
  order.  The per-atom fragment string ("type,smiles") computed through
  OpenBabel is abstracted as a function `ℕ → String` from atom index to
  encoding.
* NumPy in-place mutation (`xyz -= centroid`) is modelled by explicit store
  passing: a store maps array references to their contents, and the function
  returns the reference it was given together with the updated store.
* NumPy fancy-indexed in-place addition (`vector[channels] += 1`) is
  buffered: duplicate indices contribute a single increment.  The embedding
  `numpy_fancy_add_one` reproduces exactly that semantics.
* The voxel tensor is `np.int8`-valued, so each increment wraps modulo 256
  into the signed byte range; `int8_wrap` reproduces that arithmetic.
  The bare `try/except` around each tensor write drops exactly the writes
  whose (non-negative, by construction) indices exceed a dimension, which is
  the bounds test in `voxel_accumulate`.
-/

/-! ## Fragment hashing (`hash_ecfp`, `hash_ecfp_pair`, `compute_all_ecfp`) -/

/-- Embeds `hash_ecfp` (grid_featurizer.py lines 254-264):
`int(md5(ecfp).hexdigest(), 16) % 2 ** power`.  `md5num` stands for the
deterministic digest-to-integer conversion provided by `hashlib`. -/
def hash_ecfp (md5num : String → ℕ) (ecfp : String) (power : ℕ) : ℕ :=
  md5num ecfp % 2 ^ power

/-- Embeds `hash_ecfp_pair` (lines 267-278): the two fragment strings are
joined as `"%s,%s"` and the joined string is hashed like a single one. -/
def hash_ecfp_pair (md5num : String → ℕ) (ecfp_pair : String × String) (power : ℕ) : ℕ :=
  md5num (ecfp_pair.1 ++ "," ++ ecfp_pair.2) % 2 ^ power

/-- The string `hash_ecfp_pair` hashes: the two encodings joined by the fixed
separator `","` (line 273). -/
def splif_pair_key (a b : String) : String :=
  a ++ "," ++ b

/-- Embeds the fragment-encoding format of `compute_all_ecfp` (line 294):
every dictionary value is `"%s,%s" % (atom.GetType(), smiles)`, i.e. the
seed atom's type label joined to the fragment's canonical SMILES by a
comma. -/
def ecfp_fragment_encoding (atomType smiles : String) : String :=
  atomType ++ "," ++ smiles

/-- Number of separator characters occurring in a string. -/
def comma_count (s : String) : ℕ :=
  s.data.count ','

/-- A string containing no separator character (true of OpenBabel atom-type
labels and of canonical SMILES, whose grammar has no comma). -/
def comma_free (s : String) : Prop :=
  s.data.count ',' = 0

/-- Embeds `compute_all_ecfp` (lines 281-297) at the index level: the
molecule's atoms are indexed `0, …, numAtoms-1`; an atom is skipped when an
index filter is supplied and the atom is not in it; `enc i` stands for the
encoding `"type,smiles"` the source computes for atom `i` via OpenBabel. -/
def compute_all_ecfp (numAtoms : ℕ) (indices : Option (List ℕ)) (enc : ℕ → String) :
    List (ℕ × String) :=
  (List.range numAtoms).filterMap (fun i =>
    match indices with
    | some idxs => if i ∈ idxs then some (i, enc i) else none
    | none => some (i, enc i))

/-- Lookup in an association-list model of a Python dict. -/
def dict_lookup (d : List (ℕ × String)) (i : ℕ) : Option String :=
  (d.find? (fun kv => kv.1 == i)).map Prod.snd

/-! ## Binding pocket and SPLIF contacts -/

/-- Embeds lines 327-328 of `featurize_binding_pocket_ecfp`: the set of
protein rows of the m×n distance matrix with some entry `< 4.5`.  The
source compares against the literal `4.5`, not the `cutoff` parameter. -/
def pocket_protein_atoms (D : ℕ → ℕ → ℚ) (m n : ℕ) : List ℕ :=
  (List.range m).filter (fun i => (List.range n).any (fun j => decide (D i j < 9/2)))

/-- Embeds `featurize_binding_pocket_ecfp` (lines 316-334).  The `cutoff`
parameter is accepted, as in the source, but the body restricts the protein
dictionary using the hard-coded `4.5` of line 327, so `cutoff` is unused. -/
def featurize_binding_pocket_ecfp (D : ℕ → ℕ → ℚ) (m n : ℕ)
    (pEnc lEnc : ℕ → String) (cutoff : ℚ) :
    List (ℕ × String) × List (ℕ × String) :=
  (compute_all_ecfp m (some (pocket_protein_atoms D m n)) pEnc,
   compute_all_ecfp n none lEnc)

/-- Embeds lines 344-348 of `compute_splif_features_in_range`: all index
pairs `(i, j)` with `contact_bin[0] < D[i,j] < contact_bin[1]`, in the
row-major order `np.nonzero` produces. -/
def contact_pairs_in_bin (D : ℕ → ℕ → ℚ) (m n : ℕ) (lo hi : ℚ) : List (ℕ × ℕ) :=
  (List.range m).flatMap (fun i => (List.range n).filterMap (fun j =>
    if lo < D i j ∧ D i j < hi then some (i, j) else none))

/-- Embeds `compute_splif_features_in_range` (lines 337-358): contacts in the
open bin, protein dictionary restricted to contacting rows, full ligand
dictionary, and the mapping `contact ↦ (protein_ecfp, ligand_ecfp)` through
dict lookup. -/
def compute_splif_features_in_range (D : ℕ → ℕ → ℚ) (m n : ℕ)
    (pEnc lEnc : ℕ → String) (lo hi : ℚ) :
    List ((ℕ × ℕ) × (Option String × Option String)) :=
  let contacts := contact_pairs_in_bin D m n lo hi
  let protein_atoms := contacts.map Prod.fst
  let protein_ecfp_dict := compute_all_ecfp m (some protein_atoms) pEnc
  let ligand_ecfp_dict := compute_all_ecfp n none lEnc
  contacts.map (fun c =>
    (c, (dict_lookup protein_ecfp_dict c.1, dict_lookup ligand_ecfp_dict c.2)))

/-! ## Hydrogen-bond geometry (`angle_between`, `is_hydrogen_bond`) -/

/-- A 3-vector of real coordinates. -/
structure Vec3 where
  x : ℝ
  y : ℝ
  z : ℝ

/-- Euclidean dot product. -/
def dot3 (a b : Vec3) : ℝ :=
  a.x * b.x + a.y * b.y + a.z * b.z

/-- Componentwise difference, `a - b`. -/
def sub3 (a b : Vec3) : Vec3 :=
  ⟨a.x - b.x, a.y - b.y, a.z - b.z⟩

/-- Componentwise negation. -/
def neg3 (a : Vec3) : Vec3 :=
  ⟨-a.x, -a.y, -a.z⟩

/-- Embeds `np.linalg.norm` on a 3-vector. -/
noncomputable def norm3 (a : Vec3) : ℝ :=
  Real.sqrt (dot3 a a)

/-- Embeds `unit_vector` (lines 145-147): `vector / np.linalg.norm(vector)`. -/
noncomputable def unit_vector (a : Vec3) : Vec3 :=
  ⟨a.x / norm3 a, a.y / norm3 a, a.z / norm3 a⟩

/-- Embeds `angle_between` (lines 150-168): the arccosine of the dot product
of the two unit vectors.  The source's NaN fallback (lines 163-167) handles
floating-point dot products falling outside `[-1, 1]`; in exact real
arithmetic the dot product of unit vectors always lies in `[-1, 1]` and
`Real.arccos` already clamps, so that branch is unreachable here. -/
noncomputable def angle_between (vector_i vector_j : Vec3) : ℝ :=
  Real.arccos (dot3 (unit_vector vector_i) (unit_vector vector_j))

/-- Embeds `is_angle_within_cutoff` (lines 385-387): the angle in degrees
must lie strictly between `180 - cutoff` and `180 + cutoff`. -/
def is_angle_within_cutoff (vector_i vector_j : Vec3) (hbond_angle_cutoff : ℝ) : Prop :=
  angle_between vector_i vector_j * 180 / Real.pi > 180 - hbond_angle_cutoff ∧
  angle_between vector_i vector_j * 180 / Real.pi < 180 + hbond_angle_cutoff

/-- An OpenBabel atom as the featurizer reads it: stable index, atomic
number, and hydrogen-bond acceptor/donor predicates. -/
structure OBAtom where
  index : ℕ
  atomicNum : ℕ
  isHbondAcceptor : Bool
  isHbondDonor : Bool

/-- An OpenBabel molecule as the featurizer reads it: `GetAtomById` and the
bonded-neighbour list of each atom id (`OBAtomAtomIter`), in iteration
order. -/
structure OBMol where
  getAtomById : ℕ → OBAtom
  neighborsOf : ℕ → List OBAtom

/-- The hydrogen-scanning loop of `is_hydrogen_bond` (lines 402-408 and
411-417): iterate over the donor's bonded neighbours; on the FIRST atom with
atomic number 1, return the result of the angle check for that atom — the
`return` inside the `for` ends the scan whether the check passes or not. -/
def hbond_hydrogen_loop (check : OBAtom → Prop) : List OBAtom → Prop
  | [] => False
  | a :: rest => if a.atomicNum = 1 then check a else hbond_hydrogen_loop check rest

/-- Embeds `is_hydrogen_bond` (lines 390-419).  `contact` is the pair
(protein atom id, ligand atom id); coordinates are indexed by atom id. -/
def is_hydrogen_bond (protein_xyz : ℕ → Vec3) (protein : OBMol)
    (ligand_xyz : ℕ → Vec3) (ligand : OBMol)
    (contact : ℕ × ℕ) (hbond_angle_cutoff : ℝ) : Prop :=
  let protein_atom := protein.getAtomById contact.1
  let ligand_atom := ligand.getAtomById contact.2
  if protein_atom.isHbondAcceptor && ligand_atom.isHbondDonor then
    hbond_hydrogen_loop
      (fun atom => is_angle_within_cutoff
        (sub3 (protein_xyz contact.1) (ligand_xyz atom.index))
        (sub3 (ligand_xyz contact.2) (ligand_xyz atom.index)) hbond_angle_cutoff)
      (ligand.neighborsOf contact.2)
  else if ligand_atom.isHbondAcceptor && protein_atom.isHbondDonor then
    hbond_hydrogen_loop
      (fun atom => is_angle_within_cutoff
        (sub3 (protein_xyz contact.1) (protein_xyz atom.index))
        (sub3 (ligand_xyz contact.2) (protein_xyz atom.index)) hbond_angle_cutoff)
      (protein.neighborsOf contact.1)
  else False

/-- The specification's reading of `is_hydrogen_bond`, stated from the
claim's words for comparison with the embedding above: one atom is an
acceptor and the other a donor (both directions checked), and AT LEAST ONE
hydrogen atom directly bonded to the donor gives an angle within the
cutoff — i.e. every directly bonded hydrogen is supposedly examined. -/
def is_hydrogen_bond_claimed (protein_xyz : ℕ → Vec3) (protein : OBMol)
    (ligand_xyz : ℕ → Vec3) (ligand : OBMol)
    (contact : ℕ × ℕ) (hbond_angle_cutoff : ℝ) : Prop :=
  (((protein.getAtomById contact.1).isHbondAcceptor ∧
      (ligand.getAtomById contact.2).isHbondDonor) ∧
    ∃ h ∈ ligand.neighborsOf contact.2, h.atomicNum = 1 ∧
      is_angle_within_cutoff
        (sub3 (protein_xyz contact.1) (ligand_xyz h.index))
        (sub3 (ligand_xyz contact.2) (ligand_xyz h.index)) hbond_angle_cutoff) ∨
  (((ligand.getAtomById contact.2).isHbondAcceptor ∧
      (protein.getAtomById contact.1).isHbondDonor) ∧
    ∃ h ∈ protein.neighborsOf contact.1, h.atomicNum = 1 ∧
      is_angle_within_cutoff
        (sub3 (protein_xyz contact.1) (protein_xyz h.index))
        (sub3 (ligand_xyz contact.2) (protein_xyz h.index)) hbond_angle_cutoff)

/-! ## Flat vectorization (`grid_featurizer.vectorize`) -/

/-- NumPy fancy-indexed in-place addition `v[idxs] += 1` (line 699).  The
operation is buffered: position `c` is incremented once when `c` occurs in
`idxs`, regardless of how many times it occurs. -/
def numpy_fancy_add_one (v : List ℤ) (idxs : List ℕ) : List ℤ :=
  v.mapIdx (fun c x => if c ∈ idxs then x + 1 else x)

/-- Embeds `grid_featurizer.vectorize` (lines 690-703), feature-dict path:
a zero vector of length `2 ^ channel_power`, fancy-index incremented at the
hashed channel of every fragment value of the dictionary. -/
def vectorize (hash_function : String → ℕ → ℕ) (feature_dict : List (ℕ × String))
    (channel_power : ℕ) : List ℤ :=
  numpy_fancy_add_one (List.replicate (2 ^ channel_power) 0)
    (feature_dict.map (fun kv => hash_function kv.2 channel_power))

/-! ## Centroid subtraction (`subtract_centroid`) -/

/-- A store of NumPy arrays: reference number to array contents (rows of
rational coordinates).  Makes the in-place mutation of `xyz -= …`
observable. -/
structure NumpyHeap where
  arrays : ℕ → List (ℚ × ℚ × ℚ)

/-- Componentwise row minus centroid. -/
def row_sub (p c : ℚ × ℚ × ℚ) : ℚ × ℚ × ℚ :=
  (p.1 - c.1, p.2.1 - c.2.1, p.2.2 - c.2.2)

/-- Embeds `subtract_centroid` (lines 494-500): `xyz -= np.transpose(centroid)`
subtracts the centroid from every row of the array IN PLACE (`np.transpose`
on a 1-D length-3 vector is the identity), and the function returns the very
array object it was handed.  Modelled as: update the store at the given
reference, return the same reference with the new store. -/
def subtract_centroid (heap : NumpyHeap) (xyz : ℕ) (centroid : ℚ × ℚ × ℚ) :
    ℕ × NumpyHeap :=
  (xyz, ⟨fun r => if r = xyz then (heap.arrays xyz).map (fun p => row_sub p centroid)
                  else heap.arrays r⟩)

/-! ## Augmentation keys of `grid_featurizer.transform` -/

/-- The error raised by line 614 of `transform`: the class `grid_featurizer`
defines no method `reflect_molecule` (the only `reflect_molecule` in the
module is the free function of line 103, which is not reachable through
`self`), so the attribute lookup `self.reflect_molecule` fails with
`AttributeError` the moment the reflection loop body first runs. -/
def reflect_molecule_attribute_error : String :=
  "AttributeError: grid_featurizer has no attribute reflect_molecule"

/-- The body of the reflection loop of `transform` (lines 613-615) for
rotation `i`: evaluating `self.reflect_molecule(rotated_system)` on line 614
raises `AttributeError` before the insertion
`transformed_systems[(i + 1, j + 1)] = reflected_system` of line 615 can
run, so that insertion is dead code and every iteration of this loop
fails. -/
def transform_reflection_step (i : ℕ) (acc : List (ℕ × ℕ)) (j : ℕ) :
    Except String (List (ℕ × ℕ)) :=
  Except.error reflect_molecule_attribute_error

/-- The body of the rotation loop of `transform` (lines 610-615): insert key
`(i + 1, 0)` for the rotated system, then run the reflection loop. -/
def transform_rotation_step (nb_reflections : ℕ) (acc : List (ℕ × ℕ)) (i : ℕ) :
    Except String (List (ℕ × ℕ)) :=
  (List.range nb_reflections).foldlM (transform_reflection_step i) (acc ++ [(i + 1, 0)])

/-- Embeds the augmented-systems key construction of `transform` (lines
607-615), error path included: key `(0, 0)` is inserted for the
untransformed system and key `(i + 1, 0)` for each rotation, but every
iteration of the reflection loop raises (line 614), so a key list is
returned only when the reflection loop body never runs; a raised exception
propagates out of `transform` and no mapping is returned.  The
`voxel_combined` output mapping (lines 617-656, one tensor stored per system
id) exists exactly when this computation succeeds, and then has exactly
these keys. -/
def transform_augmentation_keys (nb_rotations nb_reflections : ℕ) :
    Except String (List (ℕ × ℕ)) :=
  (List.range nb_rotations).foldlM (transform_rotation_step nb_reflections) [(0, 0)]

/-! ## Voxelization (`grid_featurizer.voxelize`) -/

/-- A voxel grid cell together with a channel index. -/
abbrev Cell4 := ℕ × ℕ × ℕ × ℕ

/-- The dense 4-D tensor, as a total map from indices to stored value. -/
abbrev Tensor4 := ℕ → ℕ → ℕ → ℕ → ℤ

/-- The all-zero tensor `np.zeros(..., dtype=np.int8)` (lines 661-666). -/
def zero_tensor : Tensor4 :=
  fun _ _ _ _ => 0

/-- Bounds test of a tensor access: grid indices produced by
`convert_atom_to_voxel` are non-negative by construction (`floor` of an
absolute value), so the `IndexError` the bare `except` of lines 672-677
absorbs occurs exactly when an index reaches a dimension. -/
def in_bounds (dim channels : ℕ) (c : Cell4) : Bool :=
  decide (c.1 < dim) && decide (c.2.1 < dim) && decide (c.2.2.1 < dim) &&
    decide (c.2.2.2 < channels)

/-- Signed 8-bit wraparound: the value an `np.int8` cell holds after the
stored integer is reduced modulo 256 into `[-128, 127]`. -/
def int8_wrap (n : ℤ) : ℤ :=
  (n + 128) % 256 - 128

/-- One attempted accumulation `feature_tensor[i, j, k, channel] += 1.0`
(lines 672-677 and 683-686): if the cell-channel is in bounds the entry is
incremented (with `np.int8` wraparound); otherwise the raised `IndexError`
is swallowed and the tensor is left untouched — no partial write occurs
because indexing raises before any store. -/
def voxel_accumulate (dim channels : ℕ) (t : Tensor4) (c : Cell4) : Tensor4 :=
  if in_bounds dim channels c then
    fun i j k l => if (i, j, k, l) = c then int8_wrap (t i j k l + 1) else t i j k l
  else t

/-- The accumulation loop of `voxelize` over every attempted (cell, channel)
increment, in order. -/
def voxel_accumulate_all (dim channels : ℕ) (t : Tensor4) (cs : List Cell4) : Tensor4 :=
  cs.foldl (voxel_accumulate dim channels) t

/-- Embeds `grid_featurizer.voxelize` (lines 658-688): a zero-initialized
`np.int8` tensor, then one attempted accumulation per (voxel, channel) pair
generated from the feature dictionary or feature list. -/
def voxelize (dim channels : ℕ) (cs : List Cell4) : Tensor4 :=
  voxel_accumulate_all dim channels zero_tensor cs

/-! ## Concrete instances used by witnesses and counterexamples -/

/-- A digest function instance (any deterministic `String → ℕ` map is
admissible in place of MD5 for the collision counterexample, since every
hash is reduced modulo `2 ^ 0 = 1`). -/
def ex_md5 : String → ℕ :=
  fun s => s.length

/-- Two fragments on distinct atoms; with `channel_power = 0` both hash to
channel 0. -/
def ex_feature_dict : List (ℕ × String) :=
  [(0, "a"), (1, "b")]

/-- A 1×1 distance matrix whose single protein-ligand distance is 3 Å. -/
def ex_distances : ℕ → ℕ → ℚ :=
  fun _ _ => 3

/-- A 1×1 distance matrix whose single protein-ligand distance is 1 Å. -/
def w_distances : ℕ → ℕ → ℚ :=
  fun _ _ => 1

/-- Protein atom: a hydrogen-bond acceptor (e.g. a carbonyl oxygen). -/
def ex_protein_atom : OBAtom :=
  ⟨0, 8, true, false⟩

/-- Ligand atom: a hydrogen-bond donor (e.g. an amine nitrogen). -/
def ex_ligand_atom : OBAtom :=
  ⟨0, 7, false, true⟩

/-- First bonded hydrogen of the donor (examined first by the loop). -/
def ex_h1 : OBAtom :=
  ⟨1, 1, false, false⟩

/-- Second bonded hydrogen of the donor (never examined by the source). -/
def ex_h2 : OBAtom :=
  ⟨2, 1, false, false⟩

/-- Protein molecule with the single acceptor atom. -/
def ex_protein : OBMol :=
  ⟨fun _ => ex_protein_atom, fun _ => []⟩

/-- Ligand molecule: donor atom 0 bonded to hydrogens 1 and 2, in that
iteration order. -/
def ex_ligand : OBMol :=
  ⟨fun _ => ex_ligand_atom, fun i => if i = 0 then [ex_h1, ex_h2] else []⟩

/-- Protein coordinates: the acceptor sits at (2, 2, 0). -/
def ex_protein_xyz : ℕ → Vec3 :=
  fun _ => ⟨2, 2, 0⟩

/-- Ligand coordinates: donor at the origin, first hydrogen at (0, 2, 0)
(acceptor-hydrogen-donor angle of 90°, outside the cutoff window), second
hydrogen at (1, 1, 0) (angle of exactly 180°, inside it). -/
def ex_ligand_xyz : ℕ → Vec3 :=
  fun i => if i = 1 then ⟨0, 2, 0⟩ else if i = 2 then ⟨1, 1, 0⟩ else ⟨0, 0, 0⟩

/-- A store holding one coordinate array `[(1, 2, 3)]` at reference 0. -/
def ex_heap : NumpyHeap :=
  ⟨fun _ => [(1, 2, 3)]⟩

/-! ## Theorems -/

/-- C6: for every digest function, input string (or pair of strings) and
power, `hash_ecfp` and `hash_ecfp_pair` are deterministic — identical inputs
and power always yield identical output, with no randomized seeding (the
digest map is a fixed function, applied as-is) — and the output always lies
in `[0, 2 ^ power)`. -/
theorem hash_ecfp_deterministic_and_in_range :
    ∀ (md5num : String → ℕ) (s : String) (pair : String × String) (power : ℕ),
      hash_ecfp md5num s power = hash_ecfp md5num s power ∧
      hash_ecfp md5num s power < 2 ^ power ∧
      hash_ecfp_pair md5num pair power = hash_ecfp_pair md5num pair power ∧
      hash_ecfp_pair md5num pair power < 2 ^ power := by
  intro md5num s pair power
  exact ⟨rfl, Nat.mod_lt _ (pow_pos (by norm_num) power), rfl,
    Nat.mod_lt _ (pow_pos (by norm_num) power)⟩

/-- C1 counterexample: at the claim's own input (`nb_rotations = 2`,
`nb_reflections = 1`), `transform` does not return an output mapping at
all — the first iteration of the reflection loop raises `AttributeError`
because `grid_featurizer` has no `reflect_molecule` method — so no key set,
let alone the claimed 6-key one, is ever produced. -/
theorem transform_augmentation_keys_counterexample :
    transform_augmentation_keys 2 1 = Except.error reflect_molecule_attribute_error ∧
    (transform_augmentation_keys 2 1).isOk = false :=
  ⟨rfl, rfl⟩

/-- The reflection loop fails on its first iteration whenever it runs at
all. -/
theorem transform_reflection_loop_raises (i nb_reflections : ℕ)
    (h : 1 ≤ nb_reflections) (acc : List (ℕ × ℕ)) :
    (List.range nb_reflections).foldlM (transform_reflection_step i) acc =
      Except.error reflect_molecule_attribute_error := by
  obtain ⟨m, rfl⟩ : ∃ m, nb_reflections = m + 1 := ⟨nb_reflections - 1, by omega⟩
  rw [List.range_succ_eq_map, List.foldlM_cons]
  rfl

/-- C1 (amended): `transform` returns an output mapping only when the
reflection loop never runs.  With `nb_reflections = 0` it enumerates
`1 + nb_rotations` augmentation instances, one artifact per instance, with
key set exactly `(0,0)` together with `(i+1, 0)` for each
`i < nb_rotations`; with `nb_rotations = 0` the mapping has the single key
`(0, 0)`.  For `nb_rotations ≥ 1` and `nb_reflections ≥ 1` — in particular
the requested `nb_rotations = 2, nb_reflections = 1` — the first reflection
iteration raises `AttributeError` (line 614 calls `self.reflect_molecule`, a
method `grid_featurizer` does not define), so no output mapping is returned
and no augmentation key set exists, let alone one of
`(nb_rotations+1) × (nb_reflections+1)` keys. -/
theorem transform_augmentation_keys_spec :
    (∀ nb_rotations nb_reflections : ℕ, 1 ≤ nb_rotations → 1 ≤ nb_reflections →
      transform_augmentation_keys nb_rotations nb_reflections =
        Except.error reflect_molecule_attribute_error) ∧
    (∀ nb_rotations : ℕ,
      transform_augmentation_keys nb_rotations 0 =
        Except.ok ((0, 0) :: (List.range nb_rotations).map (fun i => (i + 1, 0)))) ∧
    (∀ nb_reflections : ℕ,
      transform_augmentation_keys 0 nb_reflections = Except.ok [(0, 0)]) := by
  refine ⟨?_, ?_, fun nb_reflections => rfl⟩
  · intro nb_rotations nb_reflections hr hf
    obtain ⟨k, rfl⟩ : ∃ k, nb_rotations = k + 1 := ⟨nb_rotations - 1, by omega⟩
    unfold transform_augmentation_keys
    rw [List.range_succ_eq_map, List.foldlM_cons]
    rw [show transform_rotation_step nb_reflections [(0, 0)] 0 =
        Except.error reflect_molecule_attribute_error from
      transform_reflection_loop_raises 0 nb_reflections hf _]
    rfl
  · intro nb_rotations
    induction nb_rotations with
    | zero => rfl
    | succ k ih =>
      unfold transform_augmentation_keys at ih ⊢
      rw [List.range_succ, List.foldlM_append, ih, List.map_append]
      rfl

/-- C1 witness: the crash of the amended claim exhibited at the claim's own
input, and the 3-key success mapping for two rotations with no
reflections. -/
theorem transform_augmentation_keys_spec_witness :
    transform_augmentation_keys 2 1 = Except.error reflect_molecule_attribute_error ∧
    transform_augmentation_keys 2 0 = Except.ok [(0, 0), (1, 0), (2, 0)] :=
  ⟨transform_augmentation_keys_spec.1 2 1 (by decide) (by decide),
   transform_augmentation_keys_spec.2.1 2⟩

/-- C5 counterexample: `subtract_centroid` does not leave its input
unchanged and does not allocate new data — after the call, the array stored
at the input reference has been overwritten (rows shifted by the centroid),
and the returned reference is the very input reference. -/
theorem subtract_centroid_mutation_counterexample :
    (subtract_centroid ex_heap 0 (1, 1, 1)).2.arrays 0 ≠ ex_heap.arrays 0 ∧
    (subtract_centroid ex_heap 0 (1, 1, 1)).1 = 0 := by
  refine ⟨fun hcontra => ?_, rfl⟩
  norm_num [subtract_centroid, ex_heap, row_sub] at hcontra

/-- C5 (amended): `subtract_centroid` subtracts the origin from every row of
the coordinate set, but in place: it returns the same array reference it was
given, the array now holding row i of the input minus the origin, while
arrays stored at other references are untouched. -/
theorem subtract_centroid_spec :
    ∀ (heap : NumpyHeap) (xyz : ℕ) (centroid : ℚ × ℚ × ℚ),
      (subtract_centroid heap xyz centroid).1 = xyz ∧
      (subtract_centroid heap xyz centroid).2.arrays xyz =
        (heap.arrays xyz).map (fun p => row_sub p centroid) ∧
      (∀ i : ℕ, ((subtract_centroid heap xyz centroid).2.arrays xyz)[i]? =
        ((heap.arrays xyz)[i]?).map (fun p => row_sub p centroid)) ∧
      (∀ r : ℕ, r ≠ xyz → (subtract_centroid heap xyz centroid).2.arrays r = heap.arrays r) := by
  intro heap xyz centroid
  refine ⟨rfl, by simp [subtract_centroid], fun i => ?_, fun r hr => ?_⟩
  · simp [subtract_centroid]
  · simp [subtract_centroid, hr]

/-- C5 witness: a concrete call returning reference 0 itself, with the array
at the distinct reference 1 untouched. -/
theorem subtract_centroid_spec_witness :
    (subtract_centroid ex_heap 0 (1, 1, 1)).1 = 0 ∧
    (subtract_centroid ex_heap 0 (1, 1, 1)).2.arrays 1 = ex_heap.arrays 1 :=
  ⟨(subtract_centroid_spec ex_heap 0 (1, 1, 1)).1,
   (subtract_centroid_spec ex_heap 0 (1, 1, 1)).2.2.2 1 (by decide)⟩

/-- Pointwise description of NumPy fancy-indexed `v[idxs] += 1`. -/
theorem numpy_fancy_add_one_getElem? (v : List ℤ) (idxs : List ℕ) (c : ℕ) :
    (numpy_fancy_add_one v idxs)[c]? =
      (v[c]?).map (fun x => if c ∈ idxs then x + 1 else x) := by
  simp [numpy_fancy_add_one, List.getElem?_mapIdx]

/-- C3 (amended): `vectorize` returns a vector of length `2 ^ channel_power`
whose entry `c` is 1 when at least one fragment in the map hashes to channel
`c` and 0 otherwise — an occupancy indicator, not a count: fragments
colliding on the same channel contribute a single increment, because the
fancy-indexed `+= 1` is buffered over duplicate indices. -/
theorem vectorize_channel_indicator :
    ∀ (hash_function : String → ℕ → ℕ) (feature_dict : List (ℕ × String))
      (channel_power c : ℕ),
      (vectorize hash_function feature_dict channel_power).length = 2 ^ channel_power ∧
      (vectorize hash_function feature_dict channel_power)[c]? =
        (if c < 2 ^ channel_power then
          some (if c ∈ feature_dict.map (fun kv => hash_function kv.2 channel_power)
                then (1 : ℤ) else 0)
         else none) ∧
      (c ∈ feature_dict.map (fun kv => hash_function kv.2 channel_power) ↔
        ∃ kv ∈ feature_dict, hash_function kv.2 channel_power = c) := by
  intro hash_function feature_dict channel_power c
  refine ⟨?_, ?_, by simp [List.mem_map]⟩
  · simp [vectorize, numpy_fancy_add_one]
  · rw [vectorize, numpy_fancy_add_one_getElem?, List.getElem?_replicate]
    by_cases h : c < 2 ^ channel_power
    · by_cases hm : c ∈ feature_dict.map (fun kv => hash_function kv.2 channel_power) <;>
        simp [h, hm]
    · simp [h]

/-- C3 counterexample: two fragments hashing to the same channel (power 0
reduces every hash to channel 0) increment the channel once, not twice: the
entry differs from the number of fragments hashing to that channel. -/
theorem vectorize_collision_counterexample :
    (vectorize (hash_ecfp ex_md5) ex_feature_dict 0)[0]? ≠
      some (((ex_feature_dict.map (fun kv => hash_ecfp ex_md5 kv.2 0)).count 0 : ℕ) : ℤ) ∧
    (ex_feature_dict.map (fun kv => hash_ecfp ex_md5 kv.2 0)).count 0 = 2 := by
  constructor <;> decide

/-- C8: every accumulation whose grid cell or channel lies outside the
tensor bounds is silently dropped — no error propagates and no entry of the
tensor is modified — and the in-bounds accumulations are unaffected: the
loop computes the same tensor as the loop over only its in-bounds
increments. -/
theorem voxelize_oob_silently_dropped :
    ∀ (dim channels : ℕ) (t : Tensor4) (cs : List Cell4) (c : Cell4),
      voxel_accumulate_all dim channels t cs =
        voxel_accumulate_all dim channels t (cs.filter (in_bounds dim channels)) ∧
      (in_bounds dim channels c = false → voxel_accumulate dim channels t c = t) := by
  intro dim channels t cs c
  constructor
  · induction cs generalizing t with
    | nil => rfl
    | cons c0 cs' ih =>
      cases hb : in_bounds dim channels c0 with
      | true =>
        simp only [voxel_accumulate_all, List.foldl_cons, List.filter_cons, hb, if_true]
        exact ih (voxel_accumulate dim channels t c0)
      | false =>
        have ht : voxel_accumulate dim channels t c0 = t := by
          simp [voxel_accumulate, hb]
        simp only [voxel_accumulate_all, List.foldl_cons, List.filter_cons, hb,
          Bool.false_eq_true, if_false, ht]
        exact ih t
  · intro hb
    simp [voxel_accumulate, hb]

/-- C8 witness: a concrete out-of-bounds accumulation (grid index 5 in a
2-cell-wide tensor) that leaves the zero tensor untouched. -/
theorem voxelize_oob_witness :
    in_bounds 2 1 (5, 0, 0, 0) = false ∧
    voxel_accumulate 2 1 zero_tensor (5, 0, 0, 0) = zero_tensor :=
  ⟨rfl, (voxelize_oob_silently_dropped 2 1 zero_tensor [] (5, 0, 0, 0)).2 rfl⟩

/-- Signed-byte wraparound commutes with incrementing. -/
theorem int8_wrap_add_one (n : ℤ) : int8_wrap (int8_wrap n + 1) = int8_wrap (n + 1) := by
  unfold int8_wrap
  omega

/-- The value an `np.int8` cell holds after k increments from zero. -/
theorem int8_wrap_iterate (k : ℕ) :
    (fun x => int8_wrap (x + 1))^[k] 0 = int8_wrap k := by
  induction k with
  | zero => decide
  | succ m ih =>
    rw [Function.iterate_succ_apply', ih]
    have hc : ((m + 1 : ℕ) : ℤ) = (m : ℤ) + 1 := by push_cast; ring
    rw [hc]
    exact int8_wrap_add_one _

/-- Pointwise effect of the accumulation loop: the entry at `p` after the
loop equals the entry before it, bumped once (with `np.int8` wraparound) per
in-bounds increment that targets `p`. -/
theorem voxel_accumulate_all_apply :
    ∀ (dim channels : ℕ) (cs : List Cell4) (t : Tensor4) (p : Cell4),
      voxel_accumulate_all dim channels t cs p.1 p.2.1 p.2.2.1 p.2.2.2 =
        (fun x => int8_wrap (x + 1))^[(cs.filter
            (fun c => in_bounds dim channels c && decide (c = p))).length]
          (t p.1 p.2.1 p.2.2.1 p.2.2.2) := by
  intro dim channels cs
  induction cs with
  | nil => intro t p; rfl
  | cons c0 cs' ih =>
    intro t p
    have hstep : voxel_accumulate_all dim channels t (c0 :: cs') =
        voxel_accumulate_all dim channels (voxel_accumulate dim channels t c0) cs' := rfl
    rw [hstep]
    cases hb : in_bounds dim channels c0 with
    | false =>
      have ht : voxel_accumulate dim channels t c0 = t := by
        simp [voxel_accumulate, hb]
      have hf : (c0 :: cs').filter (fun c => in_bounds dim channels c && decide (c = p)) =
          cs'.filter (fun c => in_bounds dim channels c && decide (c = p)) := by
        simp [List.filter_cons, hb]
      rw [ht, hf]
      exact ih t p
    | true =>
      by_cases hc : c0 = p
      · subst hc
        have hf : (c0 :: cs').filter (fun c => in_bounds dim channels c && decide (c = c0)) =
            c0 :: cs'.filter (fun c => in_bounds dim channels c && decide (c = c0)) := by
          simp [List.filter_cons, hb]
        rw [hf, List.length_cons, ih (voxel_accumulate dim channels t c0) c0,
          Function.iterate_succ_apply]
        congr 1
        show (voxel_accumulate dim channels t c0) c0.1 c0.2.1 c0.2.2.1 c0.2.2.2 =
          int8_wrap (t c0.1 c0.2.1 c0.2.2.1 c0.2.2.2 + 1)
        simp [voxel_accumulate, hb]
      · have hne : ((p.1, p.2.1, p.2.2.1, p.2.2.2) : Cell4) ≠ c0 := fun hcontra =>
          hc hcontra.symm
        have ht : (voxel_accumulate dim channels t c0) p.1 p.2.1 p.2.2.1 p.2.2.2 =
            t p.1 p.2.1 p.2.2.1 p.2.2.2 := by
          simp only [voxel_accumulate, hb, if_true]
          rw [if_neg hne]
        have hf : (c0 :: cs').filter (fun c => in_bounds dim channels c && decide (c = p)) =
            cs'.filter (fun c => in_bounds dim channels c && decide (c = p)) := by
          simp [List.filter_cons, hb, hc]
        rw [hf, ih (voxel_accumulate dim channels t c0) p, ht]

/-- C9 (amended): every cell-channel entry of a tensor returned by
`voxelize` equals the signed-byte (`np.int8`) wraparound of the number of
in-bounds increments made to that cell-channel.  In particular the entry
equals that count — and is non-negative — whenever the count is at most 127;
with 128 or more increments the stored byte wraps and the "non-negative
count" reading fails. -/
theorem voxelize_entry_int8_wrap :
    ∀ (dim channels : ℕ) (cs : List Cell4) (i j k l : ℕ),
      voxelize dim channels cs i j k l =
        int8_wrap ((cs.filter
          (fun c => in_bounds dim channels c && decide (c = (i, j, k, l)))).length) ∧
      ((cs.filter (fun c => in_bounds dim channels c &&
          decide (c = (i, j, k, l)))).length ≤ 127 →
        voxelize dim channels cs i j k l =
          ((cs.filter (fun c => in_bounds dim channels c &&
            decide (c = (i, j, k, l)))).length : ℤ)) := by
  intro dim channels cs i j k l
  have h0 := voxel_accumulate_all_apply dim channels cs zero_tensor (i, j, k, l)
  simp only [zero_tensor] at h0
  rw [int8_wrap_iterate] at h0
  have h : voxelize dim channels cs i j k l =
      int8_wrap ((cs.filter
        (fun c => in_bounds dim channels c && decide (c = (i, j, k, l)))).length) := h0
  refine ⟨h, fun hle => ?_⟩
  rw [h]
  unfold int8_wrap
  omega

/-- C9 witness: one in-bounds increment leaves the cell-channel holding the
count 1. -/
theorem voxelize_entry_witness :
    voxelize 1 1 [(0, 0, 0, 0)] 0 0 0 0 = 1 := by
  have h := (voxelize_entry_int8_wrap 1 1 [(0, 0, 0, 0)] 0 0 0 0).2 (by decide)
  have hlen : (([((0 : ℕ), 0, 0, 0)] : List Cell4).filter
      (fun c => in_bounds 1 1 c && decide (c = (0, 0, 0, 0)))).length = 1 := by decide
  rw [hlen] at h
  simpa using h

set_option maxRecDepth 8000 in
/-- C9 counterexample: 128 in-bounds increments of the same cell-channel
wrap the `np.int8` entry to -128 — a negative value different from the
number of in-bounds increments, refuting the "entry equals the count for any
number of accumulated features" reading. -/
theorem voxelize_int8_overflow_counterexample :
    voxelize 1 1 (List.replicate 128 ((0, 0, 0, 0) : Cell4)) 0 0 0 0 = -128 ∧
    ((List.replicate 128 ((0, 0, 0, 0) : Cell4)).filter
      (fun c => in_bounds 1 1 c && decide (c = (0, 0, 0, 0)))).length = 128 := by
  have h0 := voxel_accumulate_all_apply 1 1 (List.replicate 128 ((0, 0, 0, 0) : Cell4))
    zero_tensor (0, 0, 0, 0)
  simp only [zero_tensor] at h0
  rw [int8_wrap_iterate] at h0
  have h : voxelize 1 1 (List.replicate 128 ((0, 0, 0, 0) : Cell4)) 0 0 0 0 =
      int8_wrap ((List.replicate 128 ((0, 0, 0, 0) : Cell4)).filter
        (fun c => in_bounds 1 1 c && decide (c = (0, 0, 0, 0)))).length := h0
  refine ⟨?_, by decide⟩
  rw [h]
  decide

/-- Splitting a list at a separator occurrence is unambiguous when neither
prefix contains the separator. -/
theorem append_cons_eq_of_not_mem {c : Char} :
    ∀ (x1 x2 y1 y2 : List Char), c ∉ x1 → c ∉ x2 →
      x1 ++ c :: y1 = x2 ++ c :: y2 → x1 = x2 ∧ y1 = y2 := by
  intro x1
  induction x1 with
  | nil =>
    intro x2 y1 y2 _ h2 heq
    cases x2 with
    | nil => simpa using heq
    | cons b x2' =>
      simp only [List.nil_append, List.cons_append, List.cons.injEq] at heq
      rcases heq with ⟨rfl, -⟩
      simp at h2
  | cons a x1' ih =>
    intro x2 y1 y2 h1 h2 heq
    cases x2 with
    | nil =>
      simp only [List.cons_append, List.nil_append, List.cons.injEq] at heq
      rcases heq with ⟨rfl, -⟩
      simp at h1
    | cons b x2' =>
      simp only [List.cons_append, List.cons.injEq] at heq
      rcases heq with ⟨rfl, heq'⟩
      simp only [List.mem_cons, not_or] at h1 h2
      obtain ⟨hx, hy⟩ := ih x2' y1 y2 h1.2 h2.2 heq'
      exact ⟨by rw [hx], hy⟩

/-- Splitting a list at a separator occurrence is unambiguous when each
prefix contains exactly one separator: the shown separator is then the
second occurrence on either side, and the split position is forced. -/
theorem append_cons_eq_of_count_one {c : Char} :
    ∀ (x1 x2 y1 y2 : List Char), x1.count c = 1 → x2.count c = 1 →
      x1 ++ c :: y1 = x2 ++ c :: y2 → x1 = x2 ∧ y1 = y2 := by
  intro x1
  induction x1 with
  | nil =>
    intro x2 y1 y2 h1
    simp at h1
  | cons a x1' ih =>
    intro x2 y1 y2 h1 h2 heq
    cases x2 with
    | nil => simp at h2
    | cons b x2' =>
      simp only [List.cons_append, List.cons.injEq] at heq
      rcases heq with ⟨rfl, heq'⟩
      by_cases hac : a = c
      · subst hac
        have h1' : x1'.count a = 0 := by simpa [List.count_cons] using h1
        have h2' : x2'.count a = 0 := by simpa [List.count_cons] using h2
        obtain ⟨hx, hy⟩ := append_cons_eq_of_not_mem x1' x2' y1 y2
          (List.count_eq_zero.mp h1') (List.count_eq_zero.mp h2') heq'
        exact ⟨by rw [hx], hy⟩
      · have h1' : x1'.count c = 1 := by simpa [List.count_cons, hac] using h1
        have h2' : x2'.count c = 1 := by simpa [List.count_cons, hac] using h2
        obtain ⟨hx, hy⟩ := ih x2' y1 y2 h1' h2' heq'
        exact ⟨by rw [hx], hy⟩

/-- Character-level form of the joined SPLIF pair key. -/
theorem splif_pair_key_data (a b : String) :
    (splif_pair_key a b).data = a.data ++ ',' :: b.data := by
  simp [splif_pair_key, String.data_append]

/-- C10 (amended): the separator `","` does appear inside every fragment
encoding the pipeline produces — each encoding is the atom-type label joined
to the fragment's canonical SMILES by a comma — but, provided the atom-type
label and the SMILES are themselves comma-free, every encoding contains
exactly one comma, and the joined string `hash_ecfp_pair` hashes still
determines the pair uniquely: distinct fragment pairs never join to the same
string. -/
theorem splif_pair_key_unique_decomposition :
    (∀ atomType smiles : String, comma_free atomType → comma_free smiles →
      comma_count (ecfp_fragment_encoding atomType smiles) = 1) ∧
    (∀ a1 b1 a2 b2 : String, comma_count a1 = 1 → comma_count a2 = 1 →
      splif_pair_key a1 b1 = splif_pair_key a2 b2 → a1 = a2 ∧ b1 = b2) := by
  constructor
  · intro t s ht hs
    have ht' : t.data.count ',' = 0 := ht
    have hs' : s.data.count ',' = 0 := hs
    show (ecfp_fragment_encoding t s).data.count ',' = 1
    rw [show ecfp_fragment_encoding t s = splif_pair_key t s from rfl, splif_pair_key_data]
    simp [List.count_append, List.count_cons, ht', hs']
  · intro a1 b1 a2 b2 h1 h2 heq
    have hdata : a1.data ++ ',' :: b1.data = a2.data ++ ',' :: b2.data := by
      rw [← splif_pair_key_data, ← splif_pair_key_data, heq]
    obtain ⟨hx, hy⟩ := append_cons_eq_of_count_one a1.data a2.data b1.data b2.data h1 h2 hdata
    exact ⟨String.ext hx, String.ext hy⟩

/-- C10 witness: a concrete encoding with exactly one comma, and a concrete
unambiguous joined pair. -/
theorem splif_pair_key_unique_witness :
    comma_count (ecfp_fragment_encoding "C3" "CC") = 1 ∧
    (("C,C" : String) = "C,C" ∧ ("N,N" : String) = "N,N") :=
  ⟨splif_pair_key_unique_decomposition.1 "C3" "CC"
      (show ("C3" : String).data.count ',' = 0 by decide)
      (show ("CC" : String).data.count ',' = 0 by decide),
   splif_pair_key_unique_decomposition.2 "C,C" "N,N" "C,C" "N,N"
      (show ("C,C" : String).data.count ',' = 1 by decide)
      (show ("C,C" : String).data.count ',' = 1 by decide) rfl⟩

/-- C10 counterexample: the separator appears inside a fragment encoding
produced by the pipeline — e.g. the encoding of an atom of type label "C3"
whose fragment SMILES is "CC" is the string "C3,CC", which contains the
separator character. -/
theorem separator_in_fragment_encoding_counterexample :
    ',' ∈ (ecfp_fragment_encoding "C3" "CC").data := by
  decide

/-- Membership in a restricted environment dictionary: the entries are
exactly `(i, enc i)` for the atom indices passing the filter. -/
theorem mem_compute_all_ecfp_some :
    ∀ (numAtoms : ℕ) (idxs : List ℕ) (enc : ℕ → String) (kv : ℕ × String),
      kv ∈ compute_all_ecfp numAtoms (some idxs) enc ↔
        kv.1 < numAtoms ∧ kv.1 ∈ idxs ∧ kv.2 = enc kv.1 := by
  intro numAtoms idxs enc kv
  simp only [compute_all_ecfp, List.mem_filterMap, List.mem_range]
  constructor
  · rintro ⟨i, hi, hf⟩
    by_cases hmem : i ∈ idxs
    · simp only [if_pos hmem, Option.some.injEq] at hf
      subst hf
      exact ⟨hi, hmem, rfl⟩
    · simp [if_neg hmem] at hf
  · rintro ⟨h1, h2, h3⟩
    refine ⟨kv.1, h1, ?_⟩
    rw [if_pos h2, ← h3]

/-- Membership in an unrestricted environment dictionary. -/
theorem mem_compute_all_ecfp_none :
    ∀ (numAtoms : ℕ) (enc : ℕ → String) (kv : ℕ × String),
      kv ∈ compute_all_ecfp numAtoms none enc ↔
        kv.1 < numAtoms ∧ kv.2 = enc kv.1 := by
  intro numAtoms enc kv
  simp only [compute_all_ecfp, List.mem_filterMap, List.mem_range, Option.some.injEq]
  constructor
  · rintro ⟨i, hi, hf⟩
    subst hf
    exact ⟨hi, rfl⟩
  · rintro ⟨h1, h3⟩
    refine ⟨kv.1, h1, ?_⟩
    rw [← h3]

/-- Looking up an in-filter atom in a restricted environment dictionary
succeeds with that atom's encoding. -/
theorem dict_lookup_compute_all_ecfp_some (numAtoms : ℕ) (idxs : List ℕ) (enc : ℕ → String)
    (i : ℕ) (hm : i < numAtoms) (hi : i ∈ idxs) :
    dict_lookup (compute_all_ecfp numAtoms (some idxs) enc) i = some (enc i) := by
  have hmem : (i, enc i) ∈ compute_all_ecfp numAtoms (some idxs) enc :=
    (mem_compute_all_ecfp_some numAtoms idxs enc (i, enc i)).mpr ⟨hm, hi, rfl⟩
  have hsome : (List.find? (fun kv => kv.1 == i)
      (compute_all_ecfp numAtoms (some idxs) enc)).isSome := by
    rw [List.find?_isSome]
    exact ⟨(i, enc i), hmem, by simp⟩
  obtain ⟨kv, hfind⟩ := Option.isSome_iff_exists.mp hsome
  have hp : kv.1 = i := by simpa using List.find?_some hfind
  have hkv := (mem_compute_all_ecfp_some numAtoms idxs enc kv).mp
    (List.mem_of_find?_eq_some hfind)
  unfold dict_lookup
  rw [hfind]
  simp [hkv.2.2, hp]

/-- Looking up an in-range atom in an unrestricted environment dictionary
succeeds with that atom's encoding. -/
theorem dict_lookup_compute_all_ecfp_none (numAtoms : ℕ) (enc : ℕ → String)
    (i : ℕ) (hm : i < numAtoms) :
    dict_lookup (compute_all_ecfp numAtoms none enc) i = some (enc i) := by
  have hmem : (i, enc i) ∈ compute_all_ecfp numAtoms none enc :=
    (mem_compute_all_ecfp_none numAtoms enc (i, enc i)).mpr ⟨hm, rfl⟩
  have hsome : (List.find? (fun kv => kv.1 == i)
      (compute_all_ecfp numAtoms none enc)).isSome := by
    rw [List.find?_isSome]
    exact ⟨(i, enc i), hmem, by simp⟩
  obtain ⟨kv, hfind⟩ := Option.isSome_iff_exists.mp hsome
  have hp : kv.1 = i := by simpa using List.find?_some hfind
  have hkv := (mem_compute_all_ecfp_none numAtoms enc kv).mp
    (List.mem_of_find?_eq_some hfind)
  unfold dict_lookup
  rw [hfind]
  simp [hkv.2, hp]

/-- C7: for every contact bin `(lo, hi)` and distance matrix `D`, the SPLIF
fingerprint-pair map for that bin has key set exactly the index pairs
`(i, j)` with `lo < D[i,j] < hi` — the bin is an open interval, boundary
values excluded — and each key maps to the pair (protein fragment of atom
`i`, ligand fragment of atom `j`). -/
theorem compute_splif_features_in_range_spec :
    ∀ (D : ℕ → ℕ → ℚ) (m n : ℕ) (pEnc lEnc : ℕ → String) (lo hi : ℚ) (i j : ℕ),
      ((i, j) ∈ (compute_splif_features_in_range D m n pEnc lEnc lo hi).map Prod.fst ↔
        i < m ∧ j < n ∧ lo < D i j ∧ D i j < hi) ∧
      (∀ v, ((i, j), v) ∈ compute_splif_features_in_range D m n pEnc lEnc lo hi →
        v = (some (pEnc i), some (lEnc j))) := by
  intro D m n pEnc lEnc lo hi i j
  have hcontact : ∀ a b : ℕ, (a, b) ∈ contact_pairs_in_bin D m n lo hi ↔
      a < m ∧ b < n ∧ lo < D a b ∧ D a b < hi := by
    intro a b
    simp only [contact_pairs_in_bin, List.mem_flatMap, List.mem_filterMap, List.mem_range]
    constructor
    · rintro ⟨a', ha', b', hb', hf⟩
      by_cases hcond : lo < D a' b' ∧ D a' b' < hi
      · rw [if_pos hcond] at hf
        obtain ⟨rfl, rfl⟩ : a' = a ∧ b' = b := by simpa [Prod.ext_iff] using hf
        exact ⟨ha', hb', hcond⟩
      · rw [if_neg hcond] at hf
        exact absurd hf (by simp)
    · rintro ⟨h1, h2, h3, h4⟩
      exact ⟨a, h1, b, h2, by rw [if_pos ⟨h3, h4⟩]⟩
  constructor
  · have hkeys : (compute_splif_features_in_range D m n pEnc lEnc lo hi).map Prod.fst =
        contact_pairs_in_bin D m n lo hi := by
      simp [compute_splif_features_in_range, List.map_map, Function.comp_def, List.map_id']
    rw [hkeys]
    exact hcontact i j
  · intro v hv
    simp only [compute_splif_features_in_range, List.mem_map] at hv
    obtain ⟨c, hc, hcv⟩ := hv
    rw [Prod.mk.injEq] at hcv
    obtain ⟨rfl, rfl⟩ := hcv
    obtain ⟨h1, h2, -, -⟩ := (hcontact i j).mp hc
    have hpa : (i : ℕ) ∈ (contact_pairs_in_bin D m n lo hi).map Prod.fst :=
      List.mem_map.mpr ⟨(i, j), hc, rfl⟩
    rw [show ((i, j) : ℕ × ℕ).1 = i from rfl, show ((i, j) : ℕ × ℕ).2 = j from rfl,
      dict_lookup_compute_all_ecfp_some m _ pEnc i h1 hpa,
      dict_lookup_compute_all_ecfp_none n lEnc j h2]

/-- C7 witness: a 1-atom protein at distance 1 from a 1-atom ligand, with
contact bin (0, 2): the key (0, 0) is present, and its stored value, checked
through the theorem at the concretely computed entry, is the encoding
pair. -/
theorem compute_splif_spec_witness :
    (0, 0) ∈ (compute_splif_features_in_range w_distances 1 1 (fun _ => "P") (fun _ => "L")
      0 2).map Prod.fst ∧
    ((some "P", some "L") : Option String × Option String) = (some "P", some "L") := by
  have hspec := compute_splif_features_in_range_spec w_distances 1 1 (fun _ => "P")
    (fun _ => "L") 0 2 0 0
  have h01 : (0 : ℚ) < 1 := by norm_num
  have h12 : (1 : ℚ) < 2 := by norm_num
  have hv : ((0, 0), ((some "P" : Option String), (some "L" : Option String))) ∈
      compute_splif_features_in_range w_distances 1 1 (fun _ => "P") (fun _ => "L") 0 2 := by
    simp [compute_splif_features_in_range, contact_pairs_in_bin, compute_all_ecfp,
      dict_lookup, List.range_succ, w_distances, h01, h12, List.find?]
  exact ⟨hspec.1.mpr ⟨by norm_num, by norm_num, by norm_num [w_distances],
    by norm_num [w_distances]⟩, hspec.2 _ hv⟩

/-- C4: `featurize_binding_pocket_ecfp` ignores its `cutoff` parameter — at
cutoff 2 and a single protein-ligand distance of 3 (no ligand atom within
the cutoff), the protein environment map nevertheless contains the protein
atom, because the body compares against the hard-coded 4.5 of line 327
instead of `cutoff`.  The claim (restriction uses the passed cutoff, for
every cutoff value) matches the function's signature and the spec's intent;
the literal is the slip. -/
theorem featurize_binding_pocket_cutoff_ignored :
    ((featurize_binding_pocket_ecfp ex_distances 1 1 (fun _ => "P") (fun _ => "L") 2).1.map
      Prod.fst = [0]) ∧
    2 ≤ ex_distances 0 0 := by
  constructor
  · have hlt : (3 : ℚ) < 9/2 := by norm_num
    simp [featurize_binding_pocket_ecfp, compute_all_ecfp, pocket_protein_atoms,
      ex_distances, List.range_succ, hlt]
  · norm_num [ex_distances]

/-- The hydrogen-scanning loop checks exactly the FIRST hydrogen in the
neighbour list: it holds iff `find?` locates a hydrogen and the angle check
passes for that atom. -/
theorem hbond_hydrogen_loop_iff_find? :
    ∀ (check : OBAtom → Prop) (l : List OBAtom),
      hbond_hydrogen_loop check l ↔
        ∃ h, l.find? (fun a => a.atomicNum == 1) = some h ∧ check h := by
  intro check l
  induction l with
  | nil => simp [hbond_hydrogen_loop]
  | cons a rest ih =>
    by_cases ha : a.atomicNum = 1
    · rw [List.find?_cons_of_pos _ (by simpa using ha)]
      simp [hbond_hydrogen_loop, ha]
    · rw [List.find?_cons_of_neg _ (by simpa using ha)]
      simpa [hbond_hydrogen_loop, ha] using ih

/-- C2 (amended): `is_hydrogen_bond` holds iff one donor/acceptor direction
applies and the FIRST hydrogen among the donor's directly bonded neighbours
(in iteration order) exists and gives an angle within the cutoff; hydrogens
after the first are never examined, and the result is false when neither
direction applies (regardless of distance or angle) or when the donor has no
bonded hydrogen. -/
theorem is_hydrogen_bond_first_hydrogen_spec :
    ∀ (protein_xyz : ℕ → Vec3) (protein : OBMol) (ligand_xyz : ℕ → Vec3) (ligand : OBMol)
      (contact : ℕ × ℕ) (hbond_angle_cutoff : ℝ),
      is_hydrogen_bond protein_xyz protein ligand_xyz ligand contact hbond_angle_cutoff ↔
        ((((protein.getAtomById contact.1).isHbondAcceptor &&
            (ligand.getAtomById contact.2).isHbondDonor) = true ∧
          ∃ h, (ligand.neighborsOf contact.2).find? (fun a => a.atomicNum == 1) = some h ∧
            is_angle_within_cutoff
              (sub3 (protein_xyz contact.1) (ligand_xyz h.index))
              (sub3 (ligand_xyz contact.2) (ligand_xyz h.index)) hbond_angle_cutoff) ∨
        ((((protein.getAtomById contact.1).isHbondAcceptor &&
            (ligand.getAtomById contact.2).isHbondDonor) = false) ∧
          (((ligand.getAtomById contact.2).isHbondAcceptor &&
            (protein.getAtomById contact.1).isHbondDonor) = true) ∧
          ∃ h, (protein.neighborsOf contact.1).find? (fun a => a.atomicNum == 1) = some h ∧
            is_angle_within_cutoff
              (sub3 (protein_xyz contact.1) (protein_xyz h.index))
              (sub3 (ligand_xyz contact.2) (protein_xyz h.index)) hbond_angle_cutoff)) := by
  intro protein_xyz protein ligand_xyz ligand contact hbond_angle_cutoff
  simp only [is_hydrogen_bond]
  split_ifs with h1 h2
  · rw [hbond_hydrogen_loop_iff_find?]
    constructor
    · intro hx
      exact Or.inl ⟨h1, hx⟩
    · rintro (⟨-, hx⟩ | ⟨hn, -, -⟩)
      · exact hx
      · simp [hn] at h1
  · rw [Bool.not_eq_true] at h1
    rw [hbond_hydrogen_loop_iff_find?]
    constructor
    · intro hx
      exact Or.inr ⟨h1, h2, hx⟩
    · rintro (⟨hc, -⟩ | ⟨-, -, hx⟩)
      · simp [hc] at h1
      · exact hx
  · simp [h1, h2]

/-- The angle between the orthogonal vectors (2,0,0) and (0,-2,0) is π/2. -/
theorem angle_between_orthogonal_ex :
    angle_between ⟨2, 0, 0⟩ ⟨0, -2, 0⟩ = Real.pi / 2 := by
  have hdot : dot3 (unit_vector ⟨2, 0, 0⟩) (unit_vector ⟨0, -2, 0⟩) = 0 := by
    simp [unit_vector, dot3]
  rw [angle_between, hdot, Real.arccos_zero]

/-- The angle between a nonzero vector and its negation is π. -/
theorem angle_between_antiparallel (v : Vec3) (hv : 0 < dot3 v v) :
    angle_between v (neg3 v) = Real.pi := by
  have hnn : dot3 (neg3 v) (neg3 v) = dot3 v v := by
    simp [dot3, neg3]
  have hs' : norm3 v ≠ 0 := by
    unfold norm3
    exact ne_of_gt (Real.sqrt_pos.mpr hv)
  have hss : norm3 v * norm3 v = dot3 v v := by
    unfold norm3
    exact Real.mul_self_sqrt hv.le
  have hss' : norm3 v * norm3 v = v.x * v.x + v.y * v.y + v.z * v.z := hss
  have hnormeq : norm3 (neg3 v) = norm3 v := by
    unfold norm3
    rw [hnn]
  have hdot : dot3 (unit_vector v) (unit_vector (neg3 v)) = -1 := by
    have hx : (neg3 v).x = -v.x := rfl
    have hy : (neg3 v).y = -v.y := rfl
    have hz : (neg3 v).z = -v.z := rfl
    simp only [unit_vector, hnormeq, dot3, hx, hy, hz]
    field_simp
    nlinarith [hss', hv]
  rw [angle_between, hdot, Real.arccos_neg_one]

/-- C2 counterexample: an acceptor/donor contact whose donor carries two
bonded hydrogens — the first at 90° (fails the check), the second at 180°
(would pass).  The source returns on the first hydrogen, so
`is_hydrogen_bond` is false, while the claim (every directly bonded hydrogen
examined; true if at least one qualifies) asserts it is true. -/
theorem is_hydrogen_bond_counterexample :
    ¬ is_hydrogen_bond ex_protein_xyz ex_protein ex_ligand_xyz ex_ligand (0, 0) 90 ∧
    is_hydrogen_bond_claimed ex_protein_xyz ex_protein ex_ligand_xyz ex_ligand (0, 0) 90 := by
  constructor
  · intro hcontra
    have hfirst : is_angle_within_cutoff
        (sub3 (ex_protein_xyz 0) (ex_ligand_xyz 1))
        (sub3 (ex_ligand_xyz 0) (ex_ligand_xyz 1)) 90 := by
      simpa [is_hydrogen_bond, ex_protein, ex_ligand, ex_protein_atom, ex_ligand_atom,
        hbond_hydrogen_loop, ex_h1] using hcontra
    have hsub1 : sub3 (ex_protein_xyz 0) (ex_ligand_xyz 1) = ⟨2, 0, 0⟩ := by
      norm_num [sub3, ex_protein_xyz, ex_ligand_xyz]
    have hsub2 : sub3 (ex_ligand_xyz 0) (ex_ligand_xyz 1) = ⟨0, -2, 0⟩ := by
      norm_num [sub3, ex_protein_xyz, ex_ligand_xyz]
    rw [hsub1, hsub2] at hfirst
    have hdeg : angle_between ⟨2, 0, 0⟩ ⟨0, -2, 0⟩ * 180 / Real.pi = 90 := by
      rw [angle_between_orthogonal_ex]
      field_simp
      ring
    have hgt := hfirst.1
    rw [hdeg] at hgt
    norm_num at hgt
  · left
    refine ⟨⟨rfl, rfl⟩, ex_h2, by simp [ex_ligand], rfl, ?_⟩
    show is_angle_within_cutoff (sub3 (ex_protein_xyz 0) (ex_ligand_xyz 2))
      (sub3 (ex_ligand_xyz 0) (ex_ligand_xyz 2)) 90
    have hsub1 : sub3 (ex_protein_xyz 0) (ex_ligand_xyz 2) = ⟨1, 1, 0⟩ := by
      norm_num [sub3, ex_protein_xyz, ex_ligand_xyz]
    have hsub2 : sub3 (ex_ligand_xyz 0) (ex_ligand_xyz 2) = neg3 ⟨1, 1, 0⟩ := by
      norm_num [sub3, neg3, ex_protein_xyz, ex_ligand_xyz]
    rw [hsub1, hsub2]
    have hangle : angle_between ⟨1, 1, 0⟩ (neg3 ⟨1, 1, 0⟩) = Real.pi :=
      angle_between_antiparallel ⟨1, 1, 0⟩ (by norm_num [dot3])
    have hdeg : angle_between ⟨1, 1, 0⟩ (neg3 ⟨1, 1, 0⟩) * 180 / Real.pi = 180 := by
      rw [hangle]
      field_simp [Real.pi_ne_zero]
    unfold is_angle_within_cutoff
    rw [hdeg]
    norm_num
